import Mathlib

/-!
Verification of the scope-membership aggregation engine of
`aqua_repo_breakdown.py`.

The embedding covers `build_repository_scope_map` (seeding an
insertion-ordered map from the full repository inventory and annotating it
with per-scope lookups), `filter_repositories`, and the summary statistics
computed by `repo_breakdown`.  Python dictionaries are modelled as
insertion-ordered association lists with unique-key update semantics;
Python exceptions are modelled by `Except String`; the diagnostic `print`
statements (which the source gates behind the `verbose` / `debug` flags)
are modelled as an explicit diagnostic log.
-/

namespace Aqua

/-- A repository record as returned by the API.  `repo.get('registry', 'unknown')`
and `repo.get('name', 'unknown')` in the source mean both fields may be absent,
hence `Option String`.  Further metadata is opaque to the aggregator. -/
structure Repo where
  registry : Option String
  name : Option String
  deriving DecidableEq, Repr

/-- An application-scope descriptor; the source reads `scope.get("name")`,
which yields `None` when the field is absent. -/
structure Scope where
  name : Option String
  deriving DecidableEq, Repr

/-- Key construction: `registry + "/" + name` with absent fields degrading to `"unknown"`
(lines 58-60 and 101-103 of the source). -/
def repoKey (r : Repo) : String :=
  r.registry.getD "unknown" ++ "/" ++ r.name.getD "unknown"

/-- The value stored under each key of `repo_map`: the raw record (`"data"`)
and the accumulated scope list (`"scopes"`).  Scope names are `Option String`
because `scope.get("name")` can yield `None` and the source appends it as-is. -/
structure Entry where
  data : Repo
  scopes : List (Option String)
  deriving DecidableEq, Repr

/-- A Python dict modelled as an insertion-ordered association list with
unique keys: assignment replaces in place, fresh keys append at the end. -/
abbrev RepoMap := List (String × Entry)

/-- Dict membership test, `key in repo_map`. -/
def dictContains : RepoMap → String → Bool
  | [], _ => false
  | p :: ps, k => decide (p.1 = k) || dictContains ps k

/-- Dict assignment `repo_map[key] = v`: replace the (first) entry with this
key in place, or append a fresh entry at the end. -/
def dictSet : RepoMap → String → Entry → RepoMap
  | [], k, v => [(k, v)]
  | p :: ps, k, v => if p.1 = k then (k, v) :: ps else p :: dictSet ps k v

/-- In-place update of the entry at a key (no-op when the key is absent). -/
def dictModify : RepoMap → String → (Entry → Entry) → RepoMap
  | [], _, _ => []
  | p :: ps, k, f => if p.1 = k then (p.1, f p.2) :: ps else p :: dictModify ps k f

/-- The scope list of the entry stored at `k` (`[]` when `k` is absent). -/
def scopesAt : RepoMap → String → List (Option String)
  | [], _ => []
  | p :: ps, k => if p.1 = k then p.2.scopes else scopesAt ps k

/-- The repository record stored at `k` (`none` when `k` is absent). -/
def dataAt : RepoMap → String → Option Repo
  | [], _ => none
  | p :: ps, k => if p.1 = k then some p.2.data else dataAt ps k

/-- Diagnostic lines the aggregation may print; each constructor records the
context the source interpolates into the message.  `scopeFetchError` is
printed only when `verbose` is set (line 117-118), `notInAllRepos` only when
`debug` is set (line 110-111). -/
inductive Diag where
  | scopeFetchError (scopeName : Option String) (msg : String) : Diag
  | notInAllRepos (key : String) (scopeName : Option String) : Diag
  deriving DecidableEq, Repr

/-- Step 1 of `build_repository_scope_map` (lines 56-65): seed the map with
every inventory repository, each starting with scopes `["Global"]`. -/
def seedRepoMap (allRepos : List Repo) : RepoMap :=
  allRepos.foldl (fun m r => dictSet m (repoKey r) ⟨r, [some "Global"]⟩) []

/-- Lines 106-107: append the scope name to an entry unless already present. -/
def addScopeToEntry (scopeName : Option String) (e : Entry) : Entry :=
  if scopeName ∈ e.scopes then e else { e with scopes := e.scopes ++ [scopeName] }

/-- Lines 100-111: process one repository returned by a per-scope lookup.
If its key is in the map, the scope name is added to that entry; otherwise
the record is discarded and, when `debug` is set, a warning is logged. -/
def processScopeRepo (scopeName : Option String) (debug : Bool)
    (st : RepoMap × List Diag) (r : Repo) : RepoMap × List Diag :=
  let key := repoKey r
  if dictContains st.1 key then
    (dictModify st.1 key (addScopeToEntry scopeName), st.2)
  else
    (st.1, st.2 ++ if debug then [Diag.notInAllRepos key scopeName] else [])

/-- Lines 97-119: process one application scope.  A failing lookup is
caught: the map is left untouched, a diagnostic is logged only when
`verbose` is set, and aggregation continues. -/
def processScope (scopeLookup : Option String → Except String (List Repo))
    (verbose debug : Bool) (st : RepoMap × List Diag) (s : Scope) :
    RepoMap × List Diag :=
  match scopeLookup s.name with
  | Except.ok repos => repos.foldl (processScopeRepo s.name debug) st
  | Except.error e =>
      (st.1, st.2 ++ if verbose then [Diag.scopeFetchError s.name e] else [])

/-- The function `build_repository_scope_map` (lines 44-128).  The two foundational
fetches are consumed as `Except` values: a failing full-inventory fetch or
scope-listing fetch re-raises (lines 71-74, 85-88), while per-scope lookup
failures are non-fatal.  Scopes named `"Global"` are filtered out before
processing (line 79). -/
def build_repository_scope_map
    (allReposFetch : Except String (List Repo))
    (allScopesFetch : Except String (List Scope))
    (scopeLookup : Option String → Except String (List Repo))
    (verbose debug : Bool) : Except String (RepoMap × List Diag) := do
  let allRepos ← allReposFetch
  let repoMap := seedRepoMap allRepos
  let allScopes ← allScopesFetch
  let appScopes := allScopes.filter (fun s => decide (s.name ≠ some "Global"))
  pure (appScopes.foldl (processScope scopeLookup verbose debug) (repoMap, []))

/-- Python truthiness of the `scope_name` argument: `None` and `""` are falsy. -/
def pyTruthy : Option String → Bool
  | none => false
  | some s => decide (s ≠ "")

/-- The function `filter_repositories` (lines 131-141).  The `"scope"` branch is guarded by
the truthiness of `scope_name` (`elif filter_type == "scope" and scope_name:`). -/
def filter_repositories (repo_map : RepoMap) (filter_type : String)
    (scope_name : Option String) : RepoMap :=
  if filter_type = "orphaned" then
    repo_map.filter (fun p => decide (p.2.scopes = [some "Global"]))
  else if filter_type = "scope" && pyTruthy scope_name then
    repo_map.filter (fun p => decide (scope_name ∈ p.2.scopes))
  else
    repo_map

/-- The orphaned entries of a map: scope list exactly `["Global"]`
(line 344 of the source). -/
def orphanedEntries (m : RepoMap) : RepoMap :=
  m.filter (fun p => decide (p.2.scopes = [some "Global"]))

/-- Floor of a rational, computed on the numerator and denominator. -/
def ratFloorZ (q : ℚ) : ℤ :=
  Int.fdiv q.num q.den

/-- Python `round` on the exact rational value: round half to even
(banker's rounding), as Python's built-in `round` does. -/
def pyRound (q : ℚ) : ℤ :=
  let f := ratFloorZ q
  if q - f < 1 / 2 then f
  else if 1 / 2 < q - f then f + 1
  else if f % 2 = 0 then f else f + 1

/-- Rounding to two decimal places, `round(x, 2)`. -/
def roundTo2 (q : ℚ) : ℚ :=
  (pyRound (q * 100) : ℚ) / 100

/-- The summary block computed by `repo_breakdown` (lines 342-360). -/
structure Summary where
  total_repositories : Nat
  orphaned_repositories : Nat
  repositories_with_app_scopes : Int
  orphaned_percentage : ℚ
  deriving DecidableEq, Repr

/-- Lines 342-360: total count, orphaned count, scoped count
(`total - orphaned`), and the orphaned percentage
(`round(orphaned / total * 100, 2) if total > 0 else 0`). -/
def breakdownSummary (m : RepoMap) : Summary :=
  let total := m.length
  let orphaned := (orphanedEntries m).length
  { total_repositories := total
    orphaned_repositories := orphaned
    repositories_with_app_scopes := (total : Int) - (orphaned : Int)
    orphaned_percentage :=
      if 0 < total then roundTo2 ((orphaned : ℚ) / (total : ℚ) * 100) else 0 }

/-- The key list of the map, in insertion order. -/
def keysOf (m : RepoMap) : List String :=
  m.map Prod.fst

/-- Predicate: `scopeLookup n` succeeded and returned some repository whose key is `k`. -/
def scopeHit (scopeLookup : Option String → Except String (List Repo))
    (n : Option String) (k : String) : Prop :=
  ∃ rs, scopeLookup n = Except.ok rs ∧ ∃ r ∈ rs, repoKey r = k

theorem mem_addScopeToEntry (x sn : Option String) (e : Entry) :
    x ∈ (addScopeToEntry sn e).scopes ↔ x ∈ e.scopes ∨ x = sn := by
  unfold addScopeToEntry
  by_cases h : sn ∈ e.scopes
  · simp only [if_pos h]
    constructor
    · exact Or.inl
    · rintro (hx | rfl)
      · exact hx
      · exact h
  · simp [if_neg h]

theorem addScopeToEntry_data (sn : Option String) (e : Entry) :
    (addScopeToEntry sn e).data = e.data := by
  unfold addScopeToEntry
  by_cases h : sn ∈ e.scopes <;> simp [h]

theorem dictContains_dictSet (m : RepoMap) (k0 k : String) (v : Entry) :
    dictContains (dictSet m k0 v) k = (dictContains m k || decide (k0 = k)) := by
  induction m with
  | nil => simp [dictSet, dictContains]
  | cons p ps ih =>
    by_cases h : p.1 = k0
    · subst h
      by_cases hk : p.1 = k <;> simp [dictSet, dictContains, hk]
    · simp only [dictSet, if_neg h, dictContains, ih]
      by_cases hk : p.1 = k <;> simp [hk, Bool.or_assoc]

theorem dictContains_dictModify (m : RepoMap) (k0 k : String) (f : Entry → Entry) :
    dictContains (dictModify m k0 f) k = dictContains m k := by
  induction m with
  | nil => rfl
  | cons p ps ih =>
    by_cases h : p.1 = k0 <;> simp [dictModify, dictContains, h, ih]

theorem keysOf_dictModify (m : RepoMap) (k0 : String) (f : Entry → Entry) :
    keysOf (dictModify m k0 f) = keysOf m := by
  induction m with
  | nil => rfl
  | cons p ps ih =>
    by_cases h : p.1 = k0
    · simp [dictModify, keysOf, h]
    · simp only [dictModify, if_neg h, keysOf, List.map_cons]
      simpa [keysOf] using ih

theorem length_dictModify (m : RepoMap) (k0 : String) (f : Entry → Entry) :
    (dictModify m k0 f).length = m.length := by
  have h := congrArg List.length (keysOf_dictModify m k0 f)
  simpa [keysOf] using h

theorem length_dictSet_of_not_contains (m : RepoMap) (k : String) (v : Entry)
    (h : dictContains m k = false) : (dictSet m k v).length = m.length + 1 := by
  induction m with
  | nil => rfl
  | cons p ps ih =>
    simp only [dictContains, Bool.or_eq_false_iff, decide_eq_false_iff_not] at h
    simp [dictSet, if_neg h.1, ih h.2]

theorem mem_dictSet (m : RepoMap) (k : String) (v : Entry) (p : String × Entry)
    (hp : p ∈ dictSet m k v) : p ∈ m ∨ p = (k, v) := by
  induction m with
  | nil => simpa [dictSet] using hp
  | cons q qs ih =>
    by_cases h : q.1 = k
    · simp only [dictSet, if_pos h, List.mem_cons] at hp
      rcases hp with h1 | h2
      · exact Or.inr h1
      · exact Or.inl (List.mem_cons_of_mem q h2)
    · simp only [dictSet, if_neg h, List.mem_cons] at hp
      rcases hp with h1 | h2
      · exact Or.inl (h1 ▸ List.mem_cons_self q qs)
      · rcases ih h2 with h3 | h3
        · exact Or.inl (List.mem_cons_of_mem q h3)
        · exact Or.inr h3

theorem mem_dictModify (m : RepoMap) (k : String) (f : Entry → Entry)
    (p : String × Entry) (hp : p ∈ dictModify m k f) :
    p ∈ m ∨ ∃ q ∈ m, p = (q.1, f q.2) := by
  induction m with
  | nil => simp [dictModify] at hp
  | cons q qs ih =>
    by_cases h : q.1 = k
    · simp only [dictModify, if_pos h, List.mem_cons] at hp
      rcases hp with h1 | h2
      · exact Or.inr ⟨q, List.mem_cons_self q qs, h1⟩
      · exact Or.inl (List.mem_cons_of_mem q h2)
    · simp only [dictModify, if_neg h, List.mem_cons] at hp
      rcases hp with h1 | h2
      · exact Or.inl (h1 ▸ List.mem_cons_self q qs)
      · rcases ih h2 with h3 | ⟨r, hr, h4⟩
        · exact Or.inl (List.mem_cons_of_mem q h3)
        · exact Or.inr ⟨r, List.mem_cons_of_mem q hr, h4⟩

theorem mem_scopesAt_dictModify_addScope (m : RepoMap) (k0 k : String)
    (sn x : Option String) :
    x ∈ scopesAt (dictModify m k0 (addScopeToEntry sn)) k ↔
      x ∈ scopesAt m k ∨ (k = k0 ∧ dictContains m k0 = true ∧ x = sn) := by
  induction m with
  | nil => simp [dictModify, scopesAt, dictContains]
  | cons p ps ih =>
    by_cases h : p.1 = k0
    · by_cases hk : p.1 = k
      · have hkk0 : k = k0 := hk ▸ h
        simp [dictModify, scopesAt, dictContains, h, hk, hkk0,
          mem_addScopeToEntry]
      · have hkk0 : ¬ k = k0 := fun he => hk ((he ▸ h.symm : k0 = p.1) ▸ he.symm ▸ rfl)
        simp only [dictModify, if_pos h, scopesAt, if_neg hk]
        have hk1 : ¬ p.1 = k := hk
        simp [scopesAt, hk1, hkk0]
    · by_cases hk : p.1 = k
      · have hkk0 : ¬ k = k0 := fun he => h (hk.symm ▸ he.symm ▸ rfl)
        simp [dictModify, scopesAt, h, hk, hkk0]
      · simp only [dictModify, if_neg h, scopesAt, if_neg hk, dictContains,
          decide_eq_true_eq]
        rw [ih]
        have hpk0 : (decide (p.1 = k0) : Bool) = false := by
          simp [h]
        simp [hpk0]

theorem dataAt_dictModify_addScope (m : RepoMap) (k0 k : String)
    (sn : Option String) :
    dataAt (dictModify m k0 (addScopeToEntry sn)) k = dataAt m k := by
  induction m with
  | nil => rfl
  | cons p ps ih =>
    by_cases h : p.1 = k0
    · by_cases hk : p.1 = k <;>
        simp [dictModify, dataAt, h, hk, addScopeToEntry_data, scopesAt]
    · by_cases hk : p.1 = k
      · have hkk0 : ¬ k = k0 := fun he => h (hk.symm ▸ he.symm ▸ rfl)
        simp [dictModify, dataAt, h, hk, hkk0]
      · simp [dictModify, dataAt, h, hk, ih]

theorem scopesAt_eq_nil_of_not_contains (m : RepoMap) (k : String)
    (h : dictContains m k = false) : scopesAt m k = [] := by
  induction m with
  | nil => rfl
  | cons p ps ih =>
    simp only [dictContains, Bool.or_eq_false_iff, decide_eq_false_iff_not] at h
    simp [scopesAt, h.1, ih h.2]

theorem dictContains_processScopeRepo (sn : Option String) (d : Bool)
    (st : RepoMap × List Diag) (r : Repo) (k : String) :
    dictContains (processScopeRepo sn d st r).1 k = dictContains st.1 k := by
  unfold processScopeRepo
  by_cases h : dictContains st.1 (repoKey r) = true <;>
    simp [h, dictContains_dictModify]

theorem keysOf_processScopeRepo (sn : Option String) (d : Bool)
    (st : RepoMap × List Diag) (r : Repo) :
    keysOf (processScopeRepo sn d st r).1 = keysOf st.1 := by
  unfold processScopeRepo
  by_cases h : dictContains st.1 (repoKey r) = true <;>
    simp [h, keysOf_dictModify]

theorem dataAt_processScopeRepo (sn : Option String) (d : Bool)
    (st : RepoMap × List Diag) (r : Repo) (k : String) :
    dataAt (processScopeRepo sn d st r).1 k = dataAt st.1 k := by
  unfold processScopeRepo
  by_cases h : dictContains st.1 (repoKey r) = true <;>
    simp [h, dataAt_dictModify_addScope]

theorem mem_scopesAt_processScopeRepo (sn : Option String) (d : Bool)
    (st : RepoMap × List Diag) (r : Repo) (k : String) (x : Option String) :
    x ∈ scopesAt (processScopeRepo sn d st r).1 k ↔
      x ∈ scopesAt st.1 k ∨
        (repoKey r = k ∧ dictContains st.1 k = true ∧ x = sn) := by
  by_cases h : dictContains st.1 (repoKey r) = true
  · have hstep : (processScopeRepo sn d st r).1
        = dictModify st.1 (repoKey r) (addScopeToEntry sn) := by
      simp [processScopeRepo, h]
    rw [hstep, mem_scopesAt_dictModify_addScope]
    constructor
    · rintro (hx | ⟨rfl, hc, rfl⟩)
      · exact Or.inl hx
      · exact Or.inr ⟨rfl, hc, rfl⟩
    · rintro (hx | ⟨rfl, hc, rfl⟩)
      · exact Or.inl hx
      · exact Or.inr ⟨rfl, h, rfl⟩
  · have hstep : (processScopeRepo sn d st r).1 = st.1 := by
      simp [processScopeRepo, h]
    rw [hstep]
    constructor
    · exact Or.inl
    · rintro (hx | ⟨rfl, hc, rfl⟩)
      · exact hx
      · exact absurd hc h

theorem log_processScopeRepo (sn : Option String) (d : Bool)
    (st : RepoMap × List Diag) (r : Repo) :
    ∃ t, (processScopeRepo sn d st r).2 = st.2 ++ t := by
  unfold processScopeRepo
  by_cases h : dictContains st.1 (repoKey r) = true
  · exact ⟨[], by simp [h]⟩
  · refine ⟨if d then [Diag.notInAllRepos (repoKey r) sn] else [], ?_⟩
    simp [h]

theorem fst_processScopeRepo_log (sn : Option String) (d : Bool)
    (m : RepoMap) (l l' : List Diag) (r : Repo) :
    (processScopeRepo sn d (m, l) r).1 = (processScopeRepo sn d (m, l') r).1 := by
  unfold processScopeRepo
  by_cases h : dictContains m (repoKey r) = true <;> simp [h]

theorem processScopeRepo_not_contains (sn : Option String) (d : Bool)
    (st : RepoMap × List Diag) (r : Repo)
    (hc : dictContains st.1 (repoKey r) = false) :
    processScopeRepo sn d st r
      = (st.1, st.2 ++ if d then [Diag.notInAllRepos (repoKey r) sn] else []) := by
  unfold processScopeRepo
  simp [hc]

theorem dictContains_foldRepos (sn : Option String) (d : Bool) (rs : List Repo) :
    ∀ (st : RepoMap × List Diag) (k : String),
      dictContains (rs.foldl (processScopeRepo sn d) st).1 k = dictContains st.1 k := by
  induction rs with
  | nil => intro st k; rfl
  | cons r rs ih =>
    intro st k
    simp only [List.foldl_cons]
    rw [ih, dictContains_processScopeRepo]

theorem keysOf_foldRepos (sn : Option String) (d : Bool) (rs : List Repo) :
    ∀ (st : RepoMap × List Diag),
      keysOf (rs.foldl (processScopeRepo sn d) st).1 = keysOf st.1 := by
  induction rs with
  | nil => intro st; rfl
  | cons r rs ih =>
    intro st
    simp only [List.foldl_cons]
    rw [ih, keysOf_processScopeRepo]

theorem dataAt_foldRepos (sn : Option String) (d : Bool) (rs : List Repo) :
    ∀ (st : RepoMap × List Diag) (k : String),
      dataAt (rs.foldl (processScopeRepo sn d) st).1 k = dataAt st.1 k := by
  induction rs with
  | nil => intro st k; rfl
  | cons r rs ih =>
    intro st k
    simp only [List.foldl_cons]
    rw [ih, dataAt_processScopeRepo]

theorem mem_scopesAt_foldRepos (sn : Option String) (d : Bool) (rs : List Repo) :
    ∀ (st : RepoMap × List Diag) (k : String) (x : Option String),
      x ∈ scopesAt (rs.foldl (processScopeRepo sn d) st).1 k ↔
        x ∈ scopesAt st.1 k ∨
          (dictContains st.1 k = true ∧ x = sn ∧ ∃ r ∈ rs, repoKey r = k) := by
  induction rs with
  | nil => intro st k x; simp
  | cons r rs ih =>
    intro st k x
    simp only [List.foldl_cons]
    rw [ih, mem_scopesAt_processScopeRepo, dictContains_processScopeRepo]
    constructor
    · rintro ((hx | ⟨hr, hc, rfl⟩) | ⟨hc, rfl, r', hr', hk⟩)
      · exact Or.inl hx
      · exact Or.inr ⟨hc, rfl, r, List.mem_cons_self r rs, hr⟩
      · exact Or.inr ⟨hc, rfl, r', List.mem_cons_of_mem r hr', hk⟩
    · rintro (hx | ⟨hc, rfl, r', hr', hk⟩)
      · exact Or.inl (Or.inl hx)
      · rcases List.mem_cons.mp hr' with rfl | hmem
        · exact Or.inl (Or.inr ⟨hk, hc, rfl⟩)
        · exact Or.inr ⟨hc, rfl, r', hmem, hk⟩

theorem log_foldRepos (sn : Option String) (d : Bool) (rs : List Repo) :
    ∀ (st : RepoMap × List Diag),
      ∃ t, (rs.foldl (processScopeRepo sn d) st).2 = st.2 ++ t := by
  induction rs with
  | nil => intro st; exact ⟨[], by simp⟩
  | cons r rs ih =>
    intro st
    simp only [List.foldl_cons]
    obtain ⟨t1, h1⟩ := ih (processScopeRepo sn d st r)
    obtain ⟨t0, h0⟩ := log_processScopeRepo sn d st r
    exact ⟨t0 ++ t1, by rw [h1, h0, List.append_assoc]⟩

theorem fst_foldRepos_log (sn : Option String) (d : Bool) (rs : List Repo) :
    ∀ (m : RepoMap) (l l' : List Diag),
      (rs.foldl (processScopeRepo sn d) (m, l)).1
        = (rs.foldl (processScopeRepo sn d) (m, l')).1 := by
  induction rs with
  | nil => intro m l l'; rfl
  | cons r rs ih =>
    intro m l l'
    simp only [List.foldl_cons]
    have h1 : processScopeRepo sn d (m, l) r
        = ((processScopeRepo sn d (m, l) r).1, (processScopeRepo sn d (m, l) r).2) := rfl
    have h2 : processScopeRepo sn d (m, l') r
        = ((processScopeRepo sn d (m, l') r).1, (processScopeRepo sn d (m, l') r).2) := rfl
    rw [h1, h2, fst_processScopeRepo_log sn d m l l']
    exact ih _ _ _

theorem dictContains_processScope
    (L : Option String → Except String (List Repo)) (v d : Bool)
    (st : RepoMap × List Diag) (s : Scope) (k : String) :
    dictContains (processScope L v d st s).1 k = dictContains st.1 k := by
  unfold processScope
  cases hL : L s.name with
  | ok rs => exact dictContains_foldRepos s.name d rs st k
  | error e => rfl

theorem keysOf_processScope
    (L : Option String → Except String (List Repo)) (v d : Bool)
    (st : RepoMap × List Diag) (s : Scope) :
    keysOf (processScope L v d st s).1 = keysOf st.1 := by
  unfold processScope
  cases hL : L s.name with
  | ok rs => exact keysOf_foldRepos s.name d rs st
  | error e => rfl

theorem dataAt_processScope
    (L : Option String → Except String (List Repo)) (v d : Bool)
    (st : RepoMap × List Diag) (s : Scope) (k : String) :
    dataAt (processScope L v d st s).1 k = dataAt st.1 k := by
  unfold processScope
  cases hL : L s.name with
  | ok rs => exact dataAt_foldRepos s.name d rs st k
  | error e => rfl

theorem mem_scopesAt_processScope
    (L : Option String → Except String (List Repo)) (v d : Bool)
    (st : RepoMap × List Diag) (s : Scope) (k : String) (x : Option String) :
    x ∈ scopesAt (processScope L v d st s).1 k ↔
      x ∈ scopesAt st.1 k ∨
        (dictContains st.1 k = true ∧ x = s.name ∧ scopeHit L s.name k) := by
  unfold processScope
  cases hL : L s.name with
  | ok rs =>
    rw [mem_scopesAt_foldRepos]
    constructor
    · rintro (hx | ⟨hc, rfl, r, hr, hk⟩)
      · exact Or.inl hx
      · exact Or.inr ⟨hc, rfl, rs, hL, r, hr, hk⟩
    · rintro (hx | ⟨hc, rfl, rs', hrs', r, hr, hk⟩)
      · exact Or.inl hx
      · have h := hL.symm.trans hrs'
        cases h
        exact Or.inr ⟨hc, rfl, r, hr, hk⟩
  | error e =>
    constructor
    · exact Or.inl
    · rintro (hx | ⟨hc, rfl, rs', hrs', hrest⟩)
      · exact hx
      · rw [hL] at hrs'
        cases hrs'

theorem log_processScope
    (L : Option String → Except String (List Repo)) (v d : Bool)
    (st : RepoMap × List Diag) (s : Scope) :
    ∃ t, (processScope L v d st s).2 = st.2 ++ t := by
  unfold processScope
  cases hL : L s.name with
  | ok rs => exact log_foldRepos s.name d rs st
  | error e =>
    exact ⟨if v then [Diag.scopeFetchError s.name e] else [], rfl⟩

theorem fst_processScope_log
    (L : Option String → Except String (List Repo)) (v d : Bool)
    (m : RepoMap) (l l' : List Diag) (s : Scope) :
    (processScope L v d (m, l) s).1 = (processScope L v d (m, l') s).1 := by
  unfold processScope
  cases hL : L s.name with
  | ok rs => exact fst_foldRepos_log s.name d rs m l l'
  | error e => rfl

theorem dictContains_foldScopes
    (L : Option String → Except String (List Repo)) (v d : Bool)
    (ss : List Scope) :
    ∀ (st : RepoMap × List Diag) (k : String),
      dictContains (ss.foldl (processScope L v d) st).1 k = dictContains st.1 k := by
  induction ss with
  | nil => intro st k; rfl
  | cons s ss ih =>
    intro st k
    simp only [List.foldl_cons]
    rw [ih, dictContains_processScope]

theorem keysOf_foldScopes
    (L : Option String → Except String (List Repo)) (v d : Bool)
    (ss : List Scope) :
    ∀ (st : RepoMap × List Diag),
      keysOf (ss.foldl (processScope L v d) st).1 = keysOf st.1 := by
  induction ss with
  | nil => intro st; rfl
  | cons s ss ih =>
    intro st
    simp only [List.foldl_cons]
    rw [ih, keysOf_processScope]

theorem dataAt_foldScopes
    (L : Option String → Except String (List Repo)) (v d : Bool)
    (ss : List Scope) :
    ∀ (st : RepoMap × List Diag) (k : String),
      dataAt (ss.foldl (processScope L v d) st).1 k = dataAt st.1 k := by
  induction ss with
  | nil => intro st k; rfl
  | cons s ss ih =>
    intro st k
    simp only [List.foldl_cons]
    rw [ih, dataAt_processScope]

theorem mem_scopesAt_foldScopes
    (L : Option String → Except String (List Repo)) (v d : Bool)
    (ss : List Scope) :
    ∀ (st : RepoMap × List Diag) (k : String) (x : Option String),
      x ∈ scopesAt (ss.foldl (processScope L v d) st).1 k ↔
        x ∈ scopesAt st.1 k ∨
          (dictContains st.1 k = true ∧
            ∃ s ∈ ss, x = s.name ∧ scopeHit L s.name k) := by
  induction ss with
  | nil => intro st k x; simp
  | cons s ss ih =>
    intro st k x
    simp only [List.foldl_cons]
    rw [ih, mem_scopesAt_processScope, dictContains_processScope]
    constructor
    · rintro ((hx | ⟨hc, rfl, hhit⟩) | ⟨hc, s', hs', rfl, hhit⟩)
      · exact Or.inl hx
      · exact Or.inr ⟨hc, s, List.mem_cons_self s ss, rfl, hhit⟩
      · exact Or.inr ⟨hc, s', List.mem_cons_of_mem s hs', rfl, hhit⟩
    · rintro (hx | ⟨hc, s', hs', rfl, hhit⟩)
      · exact Or.inl (Or.inl hx)
      · rcases List.mem_cons.mp hs' with rfl | hmem
        · exact Or.inl (Or.inr ⟨hc, rfl, hhit⟩)
        · exact Or.inr ⟨hc, s', hmem, rfl, hhit⟩

theorem log_foldScopes
    (L : Option String → Except String (List Repo)) (v d : Bool)
    (ss : List Scope) :
    ∀ (st : RepoMap × List Diag),
      ∃ t, (ss.foldl (processScope L v d) st).2 = st.2 ++ t := by
  induction ss with
  | nil => intro st; exact ⟨[], by simp⟩
  | cons s ss ih =>
    intro st
    simp only [List.foldl_cons]
    obtain ⟨t1, h1⟩ := ih (processScope L v d st s)
    obtain ⟨t0, h0⟩ := log_processScope L v d st s
    exact ⟨t0 ++ t1, by rw [h1, h0, List.append_assoc]⟩

theorem mem_log_foldScopes
    (L : Option String → Except String (List Repo)) (v d : Bool)
    (ss : List Scope) (st : RepoMap × List Diag) (dg : Diag)
    (h : dg ∈ st.2) : dg ∈ (ss.foldl (processScope L v d) st).2 := by
  obtain ⟨t, ht⟩ := log_foldScopes L v d ss st
  rw [ht]
  exact List.mem_append_left t h

theorem fst_foldScopes_log
    (L : Option String → Except String (List Repo)) (v d : Bool)
    (ss : List Scope) :
    ∀ (m : RepoMap) (l l' : List Diag),
      (ss.foldl (processScope L v d) (m, l)).1
        = (ss.foldl (processScope L v d) (m, l')).1 := by
  induction ss with
  | nil => intro m l l'; rfl
  | cons s ss ih =>
    intro m l l'
    simp only [List.foldl_cons]
    have h1 : processScope L v d (m, l) s
        = ((processScope L v d (m, l) s).1, (processScope L v d (m, l) s).2) := rfl
    have h2 : processScope L v d (m, l') s
        = ((processScope L v d (m, l') s).1, (processScope L v d (m, l') s).2) := rfl
    rw [h1, h2, fst_processScope_log L v d m l l']
    exact ih _ _ _

theorem dictContains_foldSeed (repos : List Repo) :
    ∀ (m : RepoMap) (k : String),
      dictContains
          (repos.foldl (fun m r => dictSet m (repoKey r) ⟨r, [some "Global"]⟩) m) k
        = (dictContains m k || repos.any (fun r => decide (repoKey r = k))) := by
  induction repos with
  | nil => intro m k; simp
  | cons r rs ih =>
    intro m k
    simp only [List.foldl_cons, List.any_cons]
    rw [ih, dictContains_dictSet]
    cases dictContains m k <;> cases hr : (decide (repoKey r = k) : Bool) <;> simp [hr]

theorem dictContains_seed_of_mem (repos : List Repo) (r : Repo) (h : r ∈ repos) :
    dictContains (seedRepoMap repos) (repoKey r) = true := by
  unfold seedRepoMap
  rw [dictContains_foldSeed]
  have : repos.any (fun r' => decide (repoKey r' = repoKey r)) = true :=
    List.any_eq_true.mpr ⟨r, h, by simp⟩
  simp [this]

theorem scopes_foldSeed (repos : List Repo) :
    ∀ (m : RepoMap), (∀ p ∈ m, p.2.scopes = [some "Global"]) →
      ∀ p ∈ repos.foldl (fun m r => dictSet m (repoKey r) ⟨r, [some "Global"]⟩) m,
        p.2.scopes = [some "Global"] := by
  induction repos with
  | nil => intro m hm; exact hm
  | cons r rs ih =>
    intro m hm
    simp only [List.foldl_cons]
    refine ih _ ?_
    intro p hp
    rcases mem_dictSet m (repoKey r) ⟨r, [some "Global"]⟩ p hp with h1 | h2
    · exact hm p h1
    · rw [h2]

theorem scopes_seed (repos : List Repo) :
    ∀ p ∈ seedRepoMap repos, p.2.scopes = [some "Global"] := by
  unfold seedRepoMap
  exact scopes_foldSeed repos [] (by intro p hp; cases hp)

theorem length_foldSeed (repos : List Repo) :
    ∀ (m : RepoMap), (repos.map repoKey).Nodup →
      (∀ r ∈ repos, dictContains m (repoKey r) = false) →
      (repos.foldl (fun m r => dictSet m (repoKey r) ⟨r, [some "Global"]⟩) m).length
        = m.length + repos.length := by
  induction repos with
  | nil => intro m _ _; simp
  | cons r rs ih =>
    intro m hnd hfresh
    simp only [List.map_cons, List.nodup_cons] at hnd
    simp only [List.foldl_cons]
    have hstep : (dictSet m (repoKey r) ⟨r, [some "Global"]⟩).length = m.length + 1 :=
      length_dictSet_of_not_contains m (repoKey r) _
        (hfresh r (List.mem_cons_self r rs))
    have hfresh' : ∀ r' ∈ rs,
        dictContains (dictSet m (repoKey r) ⟨r, [some "Global"]⟩) (repoKey r') = false := by
      intro r' hr'
      rw [dictContains_dictSet]
      have h1 : dictContains m (repoKey r') = false :=
        hfresh r' (List.mem_cons_of_mem r hr')
      have h2 : ¬ repoKey r = repoKey r' := by
        intro he
        exact hnd.1 (he ▸ List.mem_map_of_mem repoKey hr')
      simp [h1, h2]
    rw [ih _ hnd.2 hfresh', hstep]
    simp [List.length_cons]
    omega

theorem length_seed (repos : List Repo) (hnd : (repos.map repoKey).Nodup) :
    (seedRepoMap repos).length = repos.length := by
  unfold seedRepoMap
  rw [length_foldSeed repos [] hnd (by intro r _; rfl)]
  simp

theorem global_mem_foldRepos (sn : Option String) (d : Bool) (rs : List Repo) :
    ∀ (st : RepoMap × List Diag),
      (∀ p ∈ st.1, some "Global" ∈ p.2.scopes) →
      ∀ p ∈ (rs.foldl (processScopeRepo sn d) st).1, some "Global" ∈ p.2.scopes := by
  induction rs with
  | nil => intro st h; exact h
  | cons r rs ih =>
    intro st h
    simp only [List.foldl_cons]
    refine ih _ ?_
    intro p hp
    unfold processScopeRepo at hp
    by_cases hc : dictContains st.1 (repoKey r) = true
    · simp only [hc, if_true] at hp
      rcases mem_dictModify st.1 (repoKey r) (addScopeToEntry sn) p hp with h1 | ⟨q, hq, h2⟩
      · exact h p h1
      · rw [h2]
        exact (mem_addScopeToEntry _ sn q.2).mpr (Or.inl (h q hq))
    · simp only [hc, if_false, Bool.false_eq_true] at hp
      exact h p hp

theorem global_mem_foldScopes
    (L : Option String → Except String (List Repo)) (v d : Bool) (ss : List Scope) :
    ∀ (st : RepoMap × List Diag),
      (∀ p ∈ st.1, some "Global" ∈ p.2.scopes) →
      ∀ p ∈ (ss.foldl (processScope L v d) st).1, some "Global" ∈ p.2.scopes := by
  induction ss with
  | nil => intro st h; exact h
  | cons s ss ih =>
    intro st h
    simp only [List.foldl_cons]
    refine ih _ ?_
    unfold processScope
    cases hL : L s.name with
    | ok rs => exact global_mem_foldRepos s.name d rs st h
    | error e => exact h

theorem build_ok (repos : List Repo) (ss : List Scope)
    (L : Option String → Except String (List Repo)) (v d : Bool) :
    build_repository_scope_map (Except.ok repos) (Except.ok ss) L v d
      = Except.ok
          ((ss.filter (fun s => decide (s.name ≠ some "Global"))).foldl
            (processScope L v d) (seedRepoMap repos, [])) := rfl

theorem build_fatal_repos (e : String) (sf : Except String (List Scope))
    (L : Option String → Except String (List Repo)) (v d : Bool) :
    build_repository_scope_map (Except.error e) sf L v d = Except.error e := rfl

theorem build_fatal_scopes (repos : List Repo) (e : String)
    (L : Option String → Except String (List Repo)) (v d : Bool) :
    build_repository_scope_map (Except.ok repos) (Except.error e) L v d
      = Except.error e := rfl

theorem mem_log_foldRepos (sn : Option String) (d : Bool) (rs : List Repo)
    (st : RepoMap × List Diag) (dg : Diag) (h : dg ∈ st.2) :
    dg ∈ (rs.foldl (processScopeRepo sn d) st).2 := by
  obtain ⟨t, ht⟩ := log_foldRepos sn d rs st
  rw [ht]
  exact List.mem_append_left t h

theorem build_ok_global (repos : List Repo) (sf : Except String (List Scope))
    (L : Option String → Except String (List Repo)) (v d : Bool)
    (m : RepoMap) (lg : List Diag)
    (h : build_repository_scope_map (Except.ok repos) sf L v d
          = Except.ok (m, lg)) :
    ∀ p ∈ m, some "Global" ∈ p.2.scopes := by
  cases sf with
  | error e =>
    rw [build_fatal_scopes] at h
    cases h
  | ok ss =>
    rw [build_ok] at h
    injection h with h2
    have hm : m = ((ss.filter (fun s => decide (s.name ≠ some "Global"))).foldl
        (processScope L v d) (seedRepoMap repos, [])).1 :=
      (congrArg Prod.fst h2).symm
    intro p hp
    rw [hm] at hp
    refine global_mem_foldScopes L v d _ _ ?_ p hp
    intro q hq
    rw [scopes_seed repos q hq]
    exact List.mem_singleton.mpr rfl

/-- Claim C1: for every input inventory and any outcome of the per-scope
lookups, every repository of `allRepos` appears in the aggregation result
under its `registry/name` key, and every entry's scope assignment contains
`"Global"` — no inventory entry is silently dropped. -/
theorem claim_C1_inventory_and_global
    (repos : List Repo) (sf : Except String (List Scope))
    (L : Option String → Except String (List Repo)) (v d : Bool)
    (m : RepoMap) (lg : List Diag)
    (h : build_repository_scope_map (Except.ok repos) sf L v d
          = Except.ok (m, lg)) :
    (∀ r ∈ repos, dictContains m (repoKey r) = true)
      ∧ ∀ p ∈ m, some "Global" ∈ p.2.scopes := by
  refine ⟨?_, build_ok_global repos sf L v d m lg h⟩
  cases sf with
  | error e =>
    rw [build_fatal_scopes] at h
    cases h
  | ok ss =>
    rw [build_ok] at h
    injection h with h2
    have hm : m = ((ss.filter (fun s => decide (s.name ≠ some "Global"))).foldl
        (processScope L v d) (seedRepoMap repos, [])).1 :=
      (congrArg Prod.fst h2).symm
    intro r hr
    rw [hm, dictContains_foldScopes]
    exact dictContains_seed_of_mem repos r hr

/-- Witness for C1 at a concrete run: one repository, no application scopes. -/
theorem claim_C1_witness :
    (∀ r ∈ [Repo.mk (some "docker.io") (some "app1")],
        dictContains
          [("docker.io/app1",
            Entry.mk (Repo.mk (some "docker.io") (some "app1")) [some "Global"])]
          (repoKey r) = true)
      ∧ ∀ p ∈ [("docker.io/app1",
            Entry.mk (Repo.mk (some "docker.io") (some "app1")) [some "Global"])],
          some "Global" ∈ p.2.scopes :=
  claim_C1_inventory_and_global
    [Repo.mk (some "docker.io") (some "app1")]
    (Except.ok []) (fun _ => Except.ok []) false false
    [("docker.io/app1",
      Entry.mk (Repo.mk (some "docker.io") (some "app1")) [some "Global"])]
    [] rfl

/-- Counterexample for C3: two distinct inventory records whose
`registry + "/" + name` keys coincide (`a` + `b/c` and `a/b` + `c`) are
merged into a single entry, so the result has 1 entry while `allRepos` has
2 elements, although every scope lookup succeeds and no consistency
anomaly occurs (there are no application scopes at all). -/
theorem claim_C3_counterexample :
    build_repository_scope_map
        (Except.ok [Repo.mk (some "a") (some "b/c"), Repo.mk (some "a/b") (some "c")])
        (Except.ok []) (fun _ => Except.ok []) false false
      = Except.ok
          ([("a/b/c", Entry.mk (Repo.mk (some "a/b") (some "c")) [some "Global"])],
            [])
    ∧ ([("a/b/c", Entry.mk (Repo.mk (some "a/b") (some "c")) [some "Global"])]
        : RepoMap).length = 1
    ∧ ([Repo.mk (some "a") (some "b/c"), Repo.mk (some "a/b") (some "c")]
        : List Repo).length = 2 :=
  ⟨rfl, rfl, rfl⟩

/-- Claim C3 (amended): when all scope lookups succeed, no consistency
anomaly occurs, and additionally the identity keys of the `allRepos`
elements are pairwise distinct, the aggregation result has exactly as many
entries as `allRepos`. -/
theorem claim_C3_amended_count
    (repos : List Repo) (ss : List Scope)
    (L : Option String → Except String (List Repo)) (v d : Bool)
    (m : RepoMap) (lg : List Diag)
    (hnd : (repos.map repoKey).Nodup)
    (_hok : ∀ s ∈ ss, ∃ rs, L s.name = Except.ok rs)
    (_hnoanom : ∀ s ∈ ss, ∀ rs, L s.name = Except.ok rs →
        ∀ r ∈ rs, dictContains (seedRepoMap repos) (repoKey r) = true)
    (h : build_repository_scope_map (Except.ok repos) (Except.ok ss) L v d
          = Except.ok (m, lg)) :
    m.length = repos.length := by
  rw [build_ok] at h
  injection h with h2
  have hm : m = ((ss.filter (fun s => decide (s.name ≠ some "Global"))).foldl
      (processScope L v d) (seedRepoMap repos, [])).1 :=
    (congrArg Prod.fst h2).symm
  have hk := keysOf_foldScopes L v d
    (ss.filter (fun s => decide (s.name ≠ some "Global"))) (seedRepoMap repos, [])
  calc m.length = (keysOf m).length := by simp [keysOf]
    _ = (keysOf (seedRepoMap repos)).length := by rw [hm, hk]
    _ = (seedRepoMap repos).length := by simp [keysOf]
    _ = repos.length := length_seed repos hnd

/-- Witness for C3 (amended) at a concrete run: two repositories with
distinct keys, one application scope whose lookup succeeds and reports an
inventory repository. -/
theorem claim_C3_witness :
    ([("docker.io/app1",
        Entry.mk (Repo.mk (some "docker.io") (some "app1"))
          [some "Global", some "team-a"]),
      ("docker.io/app2",
        Entry.mk (Repo.mk (some "docker.io") (some "app2")) [some "Global"])]
      : RepoMap).length
    = ([Repo.mk (some "docker.io") (some "app1"),
        Repo.mk (some "docker.io") (some "app2")] : List Repo).length :=
  claim_C3_amended_count
    [Repo.mk (some "docker.io") (some "app1"),
      Repo.mk (some "docker.io") (some "app2")]
    [Scope.mk (some "team-a")]
    (fun _ => Except.ok [Repo.mk (some "docker.io") (some "app1")]) false false
    [("docker.io/app1",
      Entry.mk (Repo.mk (some "docker.io") (some "app1"))
        [some "Global", some "team-a"]),
      ("docker.io/app2",
        Entry.mk (Repo.mk (some "docker.io") (some "app2")) [some "Global"])]
    []
    (by decide)
    (by intro s _; exact ⟨[Repo.mk (some "docker.io") (some "app1")], rfl⟩)
    (by
      intro s _ rs hrs r hr
      injection hrs with h3
      subst h3
      rcases List.mem_singleton.mp hr with rfl
      decide)
    rfl

theorem foldScopes_skip_error
    (L : Option String → Except String (List Repo)) (v d : Bool)
    (pre post : List Scope) (s : Scope) (e : String)
    (hL : L s.name = Except.error e) (st0 : RepoMap × List Diag) :
    ((pre ++ s :: post).foldl (processScope L v d) st0).1
      = ((pre ++ post).foldl (processScope L v d) st0).1 := by
  rw [List.foldl_append, List.foldl_append, List.foldl_cons]
  have h3 : processScope L v d (pre.foldl (processScope L v d) st0) s
      = ((pre.foldl (processScope L v d) st0).1,
          (pre.foldl (processScope L v d) st0).2
            ++ if v then [Diag.scopeFetchError s.name e] else []) := by
    unfold processScope
    rw [hL]
  rw [h3]
  rw [fst_foldScopes_log L v d post
    (pre.foldl (processScope L v d) st0).1
    ((pre.foldl (processScope L v d) st0).2
      ++ if v then [Diag.scopeFetchError s.name e] else [])
    (pre.foldl (processScope L v d) st0).2]

/-- Counterexample for C2: a run with the default flags (`verbose = false`)
in which the only scope's lookup fails.  Aggregation completes and the
repository keeps `{"Global"}`, but the diagnostic log is empty — the error
message is printed only under `verbose`, so no diagnostic is surfaced,
contrary to the claim. -/
theorem claim_C2_counterexample :
    build_repository_scope_map
        (Except.ok [Repo.mk (some "docker.io") (some "app1")])
        (Except.ok [Scope.mk (some "team-a")])
        (fun _ => Except.error "network error") false false
      = Except.ok
          ([("docker.io/app1",
              Entry.mk (Repo.mk (some "docker.io") (some "app1")) [some "Global"])],
            ([] : List Diag)) := rfl

/-- Claim C2 (amended): a failing per-scope lookup is non-fatal — its
contribution is skipped (the map is the one built with that scope removed)
and aggregation continues; the diagnostic is surfaced when `verbose` is
enabled (with the default non-verbose output the failure is skipped
silently); if the only scope's lookup fails, every repository ends with
scopes exactly `["Global"]`; a failure of the full-inventory fetch or of
the scope-listing fetch aborts the aggregation and propagates. -/
theorem claim_C2_amended_error_channels :
    (∀ (e : String) (sf : Except String (List Scope))
        (L : Option String → Except String (List Repo)) (v d : Bool),
        build_repository_scope_map (Except.error e) sf L v d = Except.error e)
    ∧ (∀ (repos : List Repo) (e : String)
        (L : Option String → Except String (List Repo)) (v d : Bool),
        build_repository_scope_map (Except.ok repos) (Except.error e) L v d
          = Except.error e)
    ∧ (∀ (repos : List Repo) (pre post : List Scope) (s : Scope)
        (L : Option String → Except String (List Repo)) (v d : Bool) (e : String),
        L s.name = Except.error e →
        ∃ m lg lg',
          build_repository_scope_map (Except.ok repos)
              (Except.ok (pre ++ s :: post)) L v d = Except.ok (m, lg)
          ∧ build_repository_scope_map (Except.ok repos)
              (Except.ok (pre ++ post)) L v d = Except.ok (m, lg'))
    ∧ (∀ (repos : List Repo) (s : Scope)
        (L : Option String → Except String (List Repo)) (v d : Bool) (e : String),
        s.name ≠ some "Global" → L s.name = Except.error e →
        ∃ lg,
          build_repository_scope_map (Except.ok repos) (Except.ok [s]) L v d
              = Except.ok (seedRepoMap repos, lg)
          ∧ ∀ p ∈ seedRepoMap repos, p.2.scopes = [some "Global"])
    ∧ (∀ (repos : List Repo) (pre post : List Scope) (s : Scope)
        (L : Option String → Except String (List Repo)) (d : Bool) (e : String)
        (m : RepoMap) (lg : List Diag),
        s.name ≠ some "Global" → L s.name = Except.error e →
        build_repository_scope_map (Except.ok repos)
            (Except.ok (pre ++ s :: post)) L true d = Except.ok (m, lg) →
        Diag.scopeFetchError s.name e ∈ lg) := by
  refine ⟨?_, ?_, ?_, ?_, ?_⟩
  · intro e sf L v d
    exact build_fatal_repos e sf L v d
  · intro repos e L v d
    exact build_fatal_scopes repos e L v d
  · intro repos pre post s L v d e hL
    rw [build_ok, build_ok]
    by_cases hs : (decide (s.name ≠ some "Global") : Bool) = true
    · have hsp : s.name ≠ some "Global" := of_decide_eq_true hs
      have hfa : (pre ++ s :: post).filter (fun s => decide (s.name ≠ some "Global"))
          = pre.filter (fun s => decide (s.name ≠ some "Global"))
            ++ s :: post.filter (fun s => decide (s.name ≠ some "Global")) := by
        simp [List.filter_append, List.filter_cons, hsp]
      have hfb : (pre ++ post).filter (fun s => decide (s.name ≠ some "Global"))
          = pre.filter (fun s => decide (s.name ≠ some "Global"))
            ++ post.filter (fun s => decide (s.name ≠ some "Global")) :=
        List.filter_append _ _
      have hmap := foldScopes_skip_error L v d
        (pre.filter (fun s => decide (s.name ≠ some "Global")))
        (post.filter (fun s => decide (s.name ≠ some "Global")))
        s e hL (seedRepoMap repos, [])
      refine ⟨((pre.filter (fun s => decide (s.name ≠ some "Global"))
          ++ s :: post.filter (fun s => decide (s.name ≠ some "Global"))).foldl
            (processScope L v d) (seedRepoMap repos, [])).1,
        ((pre.filter (fun s => decide (s.name ≠ some "Global"))
          ++ s :: post.filter (fun s => decide (s.name ≠ some "Global"))).foldl
            (processScope L v d) (seedRepoMap repos, [])).2,
        ((pre.filter (fun s => decide (s.name ≠ some "Global"))
          ++ post.filter (fun s => decide (s.name ≠ some "Global"))).foldl
            (processScope L v d) (seedRepoMap repos, [])).2, ?_, ?_⟩
      · rw [hfa]
      · rw [hfb, hmap]
    · have hfa : (pre ++ s :: post).filter (fun s => decide (s.name ≠ some "Global"))
          = (pre ++ post).filter (fun s => decide (s.name ≠ some "Global")) := by
        simp only [List.filter_append, List.filter_cons]
        rw [if_neg hs]
      rw [hfa]
      exact ⟨_, _, _, rfl, rfl⟩
  · intro repos s L v d e hs hL
    rw [build_ok]
    have hfil : ([s] : List Scope).filter (fun s => decide (s.name ≠ some "Global"))
        = [s] := by
      simp [List.filter_cons, hs]
    rw [hfil]
    refine ⟨if v then [Diag.scopeFetchError s.name e] else [], ?_, scopes_seed repos⟩
    simp only [List.foldl_cons, List.foldl_nil]
    unfold processScope
    rw [hL]
    simp
  · intro repos pre post s L d e m lg hs hL hbuild
    rw [build_ok] at hbuild
    injection hbuild with h2
    have hlg : lg = (((pre ++ s :: post).filter
        (fun s => decide (s.name ≠ some "Global"))).foldl
          (processScope L true d) (seedRepoMap repos, [])).2 :=
      (congrArg Prod.snd h2).symm
    have hfa : (pre ++ s :: post).filter (fun s => decide (s.name ≠ some "Global"))
        = pre.filter (fun s => decide (s.name ≠ some "Global"))
          ++ s :: post.filter (fun s => decide (s.name ≠ some "Global")) := by
      simp [List.filter_append, List.filter_cons, hs]
    rw [hfa, List.foldl_append, List.foldl_cons] at hlg
    have h3 : processScope L true d
        ((pre.filter (fun s => decide (s.name ≠ some "Global"))).foldl
          (processScope L true d) (seedRepoMap repos, [])) s
        = (((pre.filter (fun s => decide (s.name ≠ some "Global"))).foldl
              (processScope L true d) (seedRepoMap repos, [])).1,
            ((pre.filter (fun s => decide (s.name ≠ some "Global"))).foldl
              (processScope L true d) (seedRepoMap repos, [])).2
              ++ [Diag.scopeFetchError s.name e]) := by
      unfold processScope
      rw [hL]
      simp
    rw [h3] at hlg
    rw [hlg]
    refine mem_log_foldScopes L true d _ _ _ ?_
    exact List.mem_append_right _ (List.mem_singleton.mpr rfl)

/-- Witness for C2 (amended) at concrete runs: fatal inventory and scope
fetch failures propagate; a failing single-scope lookup is skipped, leaves
both repositories on `["Global"]`, and logs a diagnostic under `verbose`. -/
theorem claim_C2_witness :
    build_repository_scope_map (Except.error "down") (Except.ok [])
        (fun _ => Except.ok []) false false = Except.error "down"
    ∧ build_repository_scope_map
        (Except.ok [Repo.mk (some "docker.io") (some "app1")])
        (Except.error "down") (fun _ => Except.ok []) false false
        = Except.error "down"
    ∧ (∃ m lg lg',
        build_repository_scope_map
            (Except.ok [Repo.mk (some "docker.io") (some "app1")])
            (Except.ok ([] ++ Scope.mk (some "team-a") :: []))
            (fun _ => Except.error "boom") false false = Except.ok (m, lg)
        ∧ build_repository_scope_map
            (Except.ok [Repo.mk (some "docker.io") (some "app1")])
            (Except.ok ([] ++ []))
            (fun _ => Except.error "boom") false false = Except.ok (m, lg'))
    ∧ (∃ lg,
        build_repository_scope_map
            (Except.ok [Repo.mk (some "docker.io") (some "app1")])
            (Except.ok [Scope.mk (some "team-a")])
            (fun _ => Except.error "boom") false false
          = Except.ok (seedRepoMap [Repo.mk (some "docker.io") (some "app1")], lg)
        ∧ ∀ p ∈ seedRepoMap [Repo.mk (some "docker.io") (some "app1")],
            p.2.scopes = [some "Global"])
    ∧ Diag.scopeFetchError (some "team-a") "boom"
        ∈ ([Diag.scopeFetchError (some "team-a") "boom"] : List Diag) :=
  ⟨claim_C2_amended_error_channels.1 "down" (Except.ok []) (fun _ => Except.ok []) false false,
    claim_C2_amended_error_channels.2.1 [Repo.mk (some "docker.io") (some "app1")]
      "down" (fun _ => Except.ok []) false false,
    claim_C2_amended_error_channels.2.2.1 [Repo.mk (some "docker.io") (some "app1")]
      [] [] (Scope.mk (some "team-a")) (fun _ => Except.error "boom") false false
      "boom" rfl,
    claim_C2_amended_error_channels.2.2.2.1 [Repo.mk (some "docker.io") (some "app1")]
      (Scope.mk (some "team-a")) (fun _ => Except.error "boom") false false
      "boom" (by decide) rfl,
    claim_C2_amended_error_channels.2.2.2.2 [Repo.mk (some "docker.io") (some "app1")]
      [] [] (Scope.mk (some "team-a")) (fun _ => Except.error "boom") false
      "boom"
      [("docker.io/app1",
        Entry.mk (Repo.mk (some "docker.io") (some "app1")) [some "Global"])]
      [Diag.scopeFetchError (some "team-a") "boom"]
      (by decide) rfl rfl⟩

/-- Counterexample for C4: one repository reported by two scopes.  With the
scope listing in the order `a, b` the entry's scope list is
`["Global", "a", "b"]`; in the order `b, a` it is `["Global", "b", "a"]`.
The diagnostic logs are identical (both empty), yet the results differ —
the scope lists are Python lists, so the result is only identical up to
their order. -/
theorem claim_C4_counterexample :
    build_repository_scope_map
        (Except.ok [Repo.mk (some "g") (some "r")])
        (Except.ok [Scope.mk (some "a"), Scope.mk (some "b")])
        (fun _ => Except.ok [Repo.mk (some "g") (some "r")]) false false
      = Except.ok
          ([("g/r", Entry.mk (Repo.mk (some "g") (some "r"))
              [some "Global", some "a", some "b"])], [])
    ∧ build_repository_scope_map
        (Except.ok [Repo.mk (some "g") (some "r")])
        (Except.ok [Scope.mk (some "b"), Scope.mk (some "a")])
        (fun _ => Except.ok [Repo.mk (some "g") (some "r")]) false false
      = Except.ok
          ([("g/r", Entry.mk (Repo.mk (some "g") (some "r"))
              [some "Global", some "b", some "a"])], [])
    ∧ ([("g/r", Entry.mk (Repo.mk (some "g") (some "r"))
          [some "Global", some "a", some "b"])] : RepoMap)
        ≠ [("g/r", Entry.mk (Repo.mk (some "g") (some "r"))
          [some "Global", some "b", some "a"])] :=
  ⟨rfl, rfl, by decide⟩

/-- Claim C4 (amended): for a fixed inventory and fixed per-scope lookups,
reordering the scope listing yields a result with the same keys in the
same order, the same repository record at every key, and the same *set* of
scopes at every key; the results are identical up to the order of each
entry's scope list (and the diagnostic log). -/
theorem claim_C4_amended_order_independence
    (repos : List Repo) (ss1 ss2 : List Scope)
    (L : Option String → Except String (List Repo)) (v d : Bool)
    (m1 m2 : RepoMap) (lg1 lg2 : List Diag)
    (hperm : ss1.Perm ss2)
    (h1 : build_repository_scope_map (Except.ok repos) (Except.ok ss1) L v d
          = Except.ok (m1, lg1))
    (h2 : build_repository_scope_map (Except.ok repos) (Except.ok ss2) L v d
          = Except.ok (m2, lg2)) :
    keysOf m1 = keysOf m2
    ∧ (∀ k, dataAt m1 k = dataAt m2 k)
    ∧ (∀ k x, x ∈ scopesAt m1 k ↔ x ∈ scopesAt m2 k) := by
  rw [build_ok] at h1 h2
  injection h1 with h1e
  injection h2 with h2e
  have hm1 : m1 = ((ss1.filter (fun s => decide (s.name ≠ some "Global"))).foldl
      (processScope L v d) (seedRepoMap repos, [])).1 :=
    (congrArg Prod.fst h1e).symm
  have hm2 : m2 = ((ss2.filter (fun s => decide (s.name ≠ some "Global"))).foldl
      (processScope L v d) (seedRepoMap repos, [])).1 :=
    (congrArg Prod.fst h2e).symm
  have hpermf : (ss1.filter (fun s => decide (s.name ≠ some "Global"))).Perm
      (ss2.filter (fun s => decide (s.name ≠ some "Global"))) :=
    hperm.filter _
  refine ⟨?_, ?_, ?_⟩
  · rw [hm1, hm2, keysOf_foldScopes, keysOf_foldScopes]
  · intro k
    rw [hm1, hm2, dataAt_foldScopes, dataAt_foldScopes]
  · intro k x
    rw [hm1, hm2, mem_scopesAt_foldScopes, mem_scopesAt_foldScopes]
    constructor
    · rintro (hx | ⟨hc, s, hsmem, hrest⟩)
      · exact Or.inl hx
      · exact Or.inr ⟨hc, s, hpermf.mem_iff.mp hsmem, hrest⟩
    · rintro (hx | ⟨hc, s, hsmem, hrest⟩)
      · exact Or.inl hx
      · exact Or.inr ⟨hc, s, hpermf.mem_iff.mpr hsmem, hrest⟩

/-- Witness for C4 (amended) at a concrete pair of runs with swapped scope
listings. -/
theorem claim_C4_witness :
    keysOf [("g/r", Entry.mk (Repo.mk (some "g") (some "r"))
        [some "Global", some "a", some "b"])]
      = keysOf [("g/r", Entry.mk (Repo.mk (some "g") (some "r"))
        [some "Global", some "b", some "a"])]
    ∧ (∀ k, dataAt [("g/r", Entry.mk (Repo.mk (some "g") (some "r"))
          [some "Global", some "a", some "b"])] k
        = dataAt [("g/r", Entry.mk (Repo.mk (some "g") (some "r"))
          [some "Global", some "b", some "a"])] k)
    ∧ (∀ k x,
        x ∈ scopesAt [("g/r", Entry.mk (Repo.mk (some "g") (some "r"))
            [some "Global", some "a", some "b"])] k
          ↔ x ∈ scopesAt [("g/r", Entry.mk (Repo.mk (some "g") (some "r"))
            [some "Global", some "b", some "a"])] k) :=
  claim_C4_amended_order_independence
    [Repo.mk (some "g") (some "r")]
    [Scope.mk (some "a"), Scope.mk (some "b")]
    [Scope.mk (some "b"), Scope.mk (some "a")]
    (fun _ => Except.ok [Repo.mk (some "g") (some "r")]) false false
    [("g/r", Entry.mk (Repo.mk (some "g") (some "r"))
      [some "Global", some "a", some "b"])]
    [("g/r", Entry.mk (Repo.mk (some "g") (some "r"))
      [some "Global", some "b", some "a"])]
    [] []
    (by decide) rfl rfl

/-- Claim C5: on every aggregation result, filtering with `"orphaned"`
returns exactly the entries whose scope list is exactly `["Global"]`,
which coincide with the entries whose scope list has length 1; the output
is a sub-collection of the input (the filter is pure, with no effect on
the input map). -/
theorem claim_C5_orphaned_filter
    (repos : List Repo) (sf : Except String (List Scope))
    (L : Option String → Except String (List Repo)) (v d : Bool)
    (m : RepoMap) (lg : List Diag)
    (h : build_repository_scope_map (Except.ok repos) sf L v d
          = Except.ok (m, lg)) :
    filter_repositories m "orphaned" none
        = m.filter (fun p => decide (p.2.scopes = [some "Global"]))
    ∧ filter_repositories m "orphaned" none
        = m.filter (fun p => decide (p.2.scopes.length = 1))
    ∧ ∀ p ∈ filter_repositories m "orphaned" none, p ∈ m := by
  have hglob := build_ok_global repos sf L v d m lg h
  have hfilt : filter_repositories m "orphaned" none
      = m.filter (fun p => decide (p.2.scopes = [some "Global"])) := rfl
  refine ⟨hfilt, ?_, ?_⟩
  · rw [hfilt]
    refine List.filter_congr ?_
    intro p hp
    have hg := hglob p hp
    rcases Decidable.em (p.2.scopes = [some "Global"]) with he | he
    · simp [he]
    · have hne : ¬ p.2.scopes.length = 1 := by
        intro hlen
        rcases List.length_eq_one.mp hlen with ⟨a, ha⟩
        rw [ha] at hg
        rcases List.mem_singleton.mp hg with rfl
        exact he ha
      simp [he, hne]
  · intro p hp
    rw [hfilt] at hp
    exact (List.mem_filter.mp hp).1

/-- Witness for C5 at a concrete aggregation result with one scoped and one
orphaned repository. -/
theorem claim_C5_witness :
    filter_repositories
        [("docker.io/app1",
          Entry.mk (Repo.mk (some "docker.io") (some "app1"))
            [some "Global", some "team-a"]),
          ("docker.io/app2",
            Entry.mk (Repo.mk (some "docker.io") (some "app2")) [some "Global"])]
        "orphaned" none
      = ([("docker.io/app1",
            Entry.mk (Repo.mk (some "docker.io") (some "app1"))
              [some "Global", some "team-a"]),
          ("docker.io/app2",
            Entry.mk (Repo.mk (some "docker.io") (some "app2")) [some "Global"])]
          : RepoMap).filter (fun p => decide (p.2.scopes = [some "Global"]))
    ∧ filter_repositories
        [("docker.io/app1",
          Entry.mk (Repo.mk (some "docker.io") (some "app1"))
            [some "Global", some "team-a"]),
          ("docker.io/app2",
            Entry.mk (Repo.mk (some "docker.io") (some "app2")) [some "Global"])]
        "orphaned" none
      = ([("docker.io/app1",
            Entry.mk (Repo.mk (some "docker.io") (some "app1"))
              [some "Global", some "team-a"]),
          ("docker.io/app2",
            Entry.mk (Repo.mk (some "docker.io") (some "app2")) [some "Global"])]
          : RepoMap).filter (fun p => decide (p.2.scopes.length = 1))
    ∧ ∀ p ∈ filter_repositories
        [("docker.io/app1",
          Entry.mk (Repo.mk (some "docker.io") (some "app1"))
            [some "Global", some "team-a"]),
          ("docker.io/app2",
            Entry.mk (Repo.mk (some "docker.io") (some "app2")) [some "Global"])]
        "orphaned" none,
        p ∈ [("docker.io/app1",
            Entry.mk (Repo.mk (some "docker.io") (some "app1"))
              [some "Global", some "team-a"]),
          ("docker.io/app2",
            Entry.mk (Repo.mk (some "docker.io") (some "app2")) [some "Global"])] :=
  claim_C5_orphaned_filter
    [Repo.mk (some "docker.io") (some "app1"),
      Repo.mk (some "docker.io") (some "app2")]
    (Except.ok [Scope.mk (some "team-a")])
    (fun _ => Except.ok [Repo.mk (some "docker.io") (some "app1")]) false false
    [("docker.io/app1",
      Entry.mk (Repo.mk (some "docker.io") (some "app1"))
        [some "Global", some "team-a"]),
      ("docker.io/app2",
        Entry.mk (Repo.mk (some "docker.io") (some "app2")) [some "Global"])]
    [] rfl

/-- Counterexample for C6: the `"scope"` branch is guarded by Python
truthiness of `scope_name`, so the empty scope name `""` falls through to
the `"all"` branch.  On a build-produced map whose single entry does not
carry the scope `""`, filtering by `""` returns the whole map instead of
the (empty) set of entries containing `""`. -/
theorem claim_C6_counterexample :
    build_repository_scope_map
        (Except.ok [Repo.mk (some "docker.io") (some "app1")])
        (Except.ok []) (fun _ => Except.ok []) false false
      = Except.ok
          ([("docker.io/app1",
              Entry.mk (Repo.mk (some "docker.io") (some "app1")) [some "Global"])],
            [])
    ∧ filter_repositories
        [("docker.io/app1",
          Entry.mk (Repo.mk (some "docker.io") (some "app1")) [some "Global"])]
        "scope" (some "")
      = [("docker.io/app1",
          Entry.mk (Repo.mk (some "docker.io") (some "app1")) [some "Global"])]
    ∧ ([("docker.io/app1",
          Entry.mk (Repo.mk (some "docker.io") (some "app1")) [some "Global"])]
        : RepoMap).filter (fun p => decide (some "" ∈ p.2.scopes)) = []
    ∧ ([("docker.io/app1",
          Entry.mk (Repo.mk (some "docker.io") (some "app1")) [some "Global"])]
        : RepoMap) ≠ [] :=
  ⟨rfl, rfl, by decide, by decide⟩

/-- Claim C6 (amended): on every aggregation result, filtering with
`"scope"` and the scope name `"Global"` returns the entire map, and for
every *non-empty* scope name it returns exactly the entries whose scope
list contains that name. -/
theorem claim_C6_scope_filter
    (repos : List Repo) (sf : Except String (List Scope))
    (L : Option String → Except String (List Repo)) (v d : Bool)
    (m : RepoMap) (lg : List Diag)
    (h : build_repository_scope_map (Except.ok repos) sf L v d
          = Except.ok (m, lg)) :
    filter_repositories m "scope" (some "Global") = m
    ∧ ∀ s : String, s ≠ "" →
        filter_repositories m "scope" (some s)
          = m.filter (fun p => decide (some s ∈ p.2.scopes)) := by
  have hglob := build_ok_global repos sf L v d m lg h
  have hbranch : ∀ s : String, s ≠ "" →
      filter_repositories m "scope" (some s)
        = m.filter (fun p => decide (some s ∈ p.2.scopes)) := by
    intro s hs
    unfold filter_repositories
    rw [if_neg (by decide : ¬ ("scope" : String) = "orphaned")]
    have ht : pyTruthy (some s) = true := decide_eq_true hs
    rw [if_pos (by simp [ht])]
  refine ⟨?_, hbranch⟩
  rw [hbranch "Global" (by decide)]
  refine List.filter_eq_self.mpr ?_
  intro p hp
  exact decide_eq_true (hglob p hp)

/-- Witness for C6 (amended) at a concrete aggregation result. -/
theorem claim_C6_witness :
    filter_repositories
        [("docker.io/app1",
          Entry.mk (Repo.mk (some "docker.io") (some "app1"))
            [some "Global", some "team-a"]),
          ("docker.io/app2",
            Entry.mk (Repo.mk (some "docker.io") (some "app2")) [some "Global"])]
        "scope" (some "Global")
      = [("docker.io/app1",
          Entry.mk (Repo.mk (some "docker.io") (some "app1"))
            [some "Global", some "team-a"]),
          ("docker.io/app2",
            Entry.mk (Repo.mk (some "docker.io") (some "app2")) [some "Global"])]
    ∧ ∀ s : String, s ≠ "" →
        filter_repositories
            [("docker.io/app1",
              Entry.mk (Repo.mk (some "docker.io") (some "app1"))
                [some "Global", some "team-a"]),
              ("docker.io/app2",
                Entry.mk (Repo.mk (some "docker.io") (some "app2")) [some "Global"])]
            "scope" (some s)
          = ([("docker.io/app1",
                Entry.mk (Repo.mk (some "docker.io") (some "app1"))
                  [some "Global", some "team-a"]),
              ("docker.io/app2",
                Entry.mk (Repo.mk (some "docker.io") (some "app2")) [some "Global"])]
              : RepoMap).filter (fun p => decide (some s ∈ p.2.scopes)) :=
  claim_C6_scope_filter
    [Repo.mk (some "docker.io") (some "app1"),
      Repo.mk (some "docker.io") (some "app2")]
    (Except.ok [Scope.mk (some "team-a")])
    (fun _ => Except.ok [Repo.mk (some "docker.io") (some "app1")]) false false
    [("docker.io/app1",
      Entry.mk (Repo.mk (some "docker.io") (some "app1"))
        [some "Global", some "team-a"]),
      ("docker.io/app2",
        Entry.mk (Repo.mk (some "docker.io") (some "app2")) [some "Global"])]
    [] rfl

/-- Counterexample for C7: a per-scope lookup returns a repository
(`x/ghost`) absent from the inventory, under the default flags
(`debug = false`).  The ghost is discarded and creates no entry — but the
diagnostic log is empty: the warning is printed only when `debug` is set,
so the anomaly is *not* reported, contrary to the claim. -/
theorem claim_C7_counterexample :
    build_repository_scope_map
        (Except.ok [Repo.mk (some "docker.io") (some "app1")])
        (Except.ok [Scope.mk (some "team-b")])
        (fun _ => Except.ok [Repo.mk (some "x") (some "ghost")]) false false
      = Except.ok
          ([("docker.io/app1",
              Entry.mk (Repo.mk (some "docker.io") (some "app1")) [some "Global"])],
            ([] : List Diag)) := rfl

/-- Claim C7 (amended): a repository reported by a per-scope lookup whose
key is not in the result map never creates an entry — the result's keys
are exactly the seeded inventory keys, and the anomalous record leaves the
map (hence every other entry) completely unchanged; the warning is
recorded when `debug` is enabled (and silently dropped otherwise). -/
theorem claim_C7_anomaly_discarded :
    (∀ (repos : List Repo) (ss : List Scope)
        (L : Option String → Except String (List Repo)) (v d : Bool)
        (m : RepoMap) (lg : List Diag) (k : String),
        build_repository_scope_map (Except.ok repos) (Except.ok ss) L v d
            = Except.ok (m, lg) →
        dictContains m k = dictContains (seedRepoMap repos) k)
    ∧ (∀ (sn : Option String) (d : Bool) (st : RepoMap × List Diag) (r : Repo),
        dictContains st.1 (repoKey r) = false →
        (processScopeRepo sn d st r).1 = st.1)
    ∧ (∀ (repos : List Repo) (ss : List Scope)
        (L : Option String → Except String (List Repo)) (v : Bool)
        (m : RepoMap) (lg : List Diag) (s : Scope) (rs : List Repo) (r : Repo),
        build_repository_scope_map (Except.ok repos) (Except.ok ss) L v true
            = Except.ok (m, lg) →
        s ∈ ss → s.name ≠ some "Global" → L s.name = Except.ok rs → r ∈ rs →
        dictContains (seedRepoMap repos) (repoKey r) = false →
        Diag.notInAllRepos (repoKey r) s.name ∈ lg) := by
  refine ⟨?_, ?_, ?_⟩
  · intro repos ss L v d m lg k h
    rw [build_ok] at h
    injection h with h2
    have hm : m = ((ss.filter (fun s => decide (s.name ≠ some "Global"))).foldl
        (processScope L v d) (seedRepoMap repos, [])).1 :=
      (congrArg Prod.fst h2).symm
    rw [hm, dictContains_foldScopes]
  · intro sn d st r hc
    unfold processScopeRepo
    simp [hc]
  · intro repos ss L v m lg s rs r h hss hsn hL hr hghost
    rw [build_ok] at h
    injection h with h2
    have hlg : lg = (((ss.filter (fun s => decide (s.name ≠ some "Global"))).foldl
        (processScope L v true) (seedRepoMap repos, [])).2) :=
      (congrArg Prod.snd h2).symm
    have hmem : s ∈ ss.filter (fun s => decide (s.name ≠ some "Global")) :=
      List.mem_filter.mpr ⟨hss, decide_eq_true hsn⟩
    obtain ⟨pre, post, hsplit⟩ := List.append_of_mem hmem
    rw [hsplit, List.foldl_append, List.foldl_cons] at hlg
    obtain ⟨rpre, rpost, hrsplit⟩ := List.append_of_mem hr
    have hstep : processScope L v true
        (pre.foldl (processScope L v true) (seedRepoMap repos, [])) s
        = rs.foldl (processScopeRepo s.name true)
            (pre.foldl (processScope L v true) (seedRepoMap repos, [])) := by
      unfold processScope
      rw [hL]
    rw [hstep, hrsplit, List.foldl_append, List.foldl_cons] at hlg
    have hcont : dictContains
        (rpre.foldl (processScopeRepo s.name true)
          (pre.foldl (processScope L v true) (seedRepoMap repos, []))).1
        (repoKey r) = false := by
      rw [dictContains_foldRepos, dictContains_foldScopes]
      exact hghost
    have hwarn : Diag.notInAllRepos (repoKey r) s.name
        ∈ (processScopeRepo s.name true
            (rpre.foldl (processScopeRepo s.name true)
              (pre.foldl (processScope L v true) (seedRepoMap repos, []))) r).2 := by
      rw [processScopeRepo_not_contains s.name true _ r hcont]
      simp
    rw [hlg]
    exact mem_log_foldScopes L v true post _ _
      (mem_log_foldRepos s.name true rpost _ _ hwarn)

/-- Witness for C7 (amended): a concrete anomalous run with `debug = true`
logs the warning, the result's keys match the seed, and the anomalous step
leaves a concrete map unchanged. -/
theorem claim_C7_witness :
    dictContains
        [("docker.io/app1",
          Entry.mk (Repo.mk (some "docker.io") (some "app1")) [some "Global"])]
        "x/ghost"
      = dictContains
          (seedRepoMap [Repo.mk (some "docker.io") (some "app1")]) "x/ghost"
    ∧ (processScopeRepo (some "team-b") false
        ([("docker.io/app1",
            Entry.mk (Repo.mk (some "docker.io") (some "app1")) [some "Global"])],
          ([] : List Diag))
        (Repo.mk (some "x") (some "ghost"))).1
      = [("docker.io/app1",
          Entry.mk (Repo.mk (some "docker.io") (some "app1")) [some "Global"])]
    ∧ Diag.notInAllRepos "x/ghost" (some "team-b")
        ∈ [Diag.notInAllRepos "x/ghost" (some "team-b")] :=
  ⟨claim_C7_anomaly_discarded.1
      [Repo.mk (some "docker.io") (some "app1")]
      [Scope.mk (some "team-b")]
      (fun _ => Except.ok [Repo.mk (some "x") (some "ghost")]) false false
      [("docker.io/app1",
        Entry.mk (Repo.mk (some "docker.io") (some "app1")) [some "Global"])]
      [] "x/ghost" rfl,
    claim_C7_anomaly_discarded.2.1 (some "team-b") false
      ([("docker.io/app1",
          Entry.mk (Repo.mk (some "docker.io") (some "app1")) [some "Global"])],
        ([] : List Diag))
      (Repo.mk (some "x") (some "ghost")) (by decide),
    claim_C7_anomaly_discarded.2.2
      [Repo.mk (some "docker.io") (some "app1")]
      [Scope.mk (some "team-b")]
      (fun _ => Except.ok [Repo.mk (some "x") (some "ghost")]) false
      [("docker.io/app1",
        Entry.mk (Repo.mk (some "docker.io") (some "app1")) [some "Global"])]
      [Diag.notInAllRepos "x/ghost" (some "team-b")]
      (Scope.mk (some "team-b")) [Repo.mk (some "x") (some "ghost")]
      (Repo.mk (some "x") (some "ghost"))
      rfl (List.mem_singleton.mpr rfl) (by decide) rfl
      (List.mem_singleton.mpr rfl) (by decide)⟩

/-- Claim C8: the breakdown summary satisfies scoped = total − orphaned;
the orphaned percentage is `round(orphaned / total * 100, 2)` when the
total is positive; and when the total is 0 the percentage is 0, with no
division error (rational division is total in the model; the source guards
the division with `if total_repos > 0`). -/
theorem claim_C8_summary_arithmetic (m : RepoMap) :
    (breakdownSummary m).repositories_with_app_scopes
        = ((breakdownSummary m).total_repositories : Int)
          - ((breakdownSummary m).orphaned_repositories : Int)
    ∧ ((breakdownSummary m).total_repositories = 0 →
        (breakdownSummary m).orphaned_percentage = 0)
    ∧ (0 < (breakdownSummary m).total_repositories →
        (breakdownSummary m).orphaned_percentage
          = roundTo2 (((breakdownSummary m).orphaned_repositories : ℚ)
              / ((breakdownSummary m).total_repositories : ℚ) * 100)) := by
  refine ⟨rfl, ?_, ?_⟩
  · intro h0
    have h0m : m.length = 0 := h0
    simp [breakdownSummary, h0m]
  · intro hpos
    have hposm : 0 < m.length := hpos
    simp [breakdownSummary, hposm]

/-- Witness for C8: the empty inventory yields percentage 0; a two-entry
result with one orphan yields the rounded formula value (50). -/
theorem claim_C8_witness :
    (breakdownSummary ([] : RepoMap)).orphaned_percentage = 0
    ∧ (breakdownSummary
        [("docker.io/app1",
          Entry.mk (Repo.mk (some "docker.io") (some "app1"))
            [some "Global", some "team-a"]),
          ("docker.io/app2",
            Entry.mk (Repo.mk (some "docker.io") (some "app2")) [some "Global"])]
          ).orphaned_percentage
      = roundTo2 (((breakdownSummary
            [("docker.io/app1",
              Entry.mk (Repo.mk (some "docker.io") (some "app1"))
                [some "Global", some "team-a"]),
              ("docker.io/app2",
                Entry.mk (Repo.mk (some "docker.io") (some "app2"))
                  [some "Global"])]).orphaned_repositories : ℚ)
          / ((breakdownSummary
                [("docker.io/app1",
                  Entry.mk (Repo.mk (some "docker.io") (some "app1"))
                    [some "Global", some "team-a"]),
                  ("docker.io/app2",
                    Entry.mk (Repo.mk (some "docker.io") (some "app2"))
                      [some "Global"])]).total_repositories : ℚ) * 100) :=
  ⟨(claim_C8_summary_arithmetic []).2.1 rfl,
    (claim_C8_summary_arithmetic
      [("docker.io/app1",
        Entry.mk (Repo.mk (some "docker.io") (some "app1"))
          [some "Global", some "team-a"]),
        ("docker.io/app2",
          Entry.mk (Repo.mk (some "docker.io") (some "app2")) [some "Global"])]
      ).2.2 (by decide)⟩

/-- Claim C9: a repository identity is derived deterministically from any
record, with a missing registry or name degrading to the sentinel
`"unknown"` instead of failing; in particular the aggregation is total —
it succeeds on any inventory, including records with absent fields. -/
theorem claim_C9_identity_sentinel :
    (∀ n : String, repoKey (Repo.mk none (some n)) = "unknown/" ++ n)
    ∧ (∀ g : String, repoKey (Repo.mk (some g) none) = g ++ "/" ++ "unknown")
    ∧ repoKey (Repo.mk none none) = "unknown/unknown"
    ∧ (∀ (repos : List Repo) (ss : List Scope)
        (L : Option String → Except String (List Repo)) (v d : Bool),
        ∃ m lg,
          build_repository_scope_map (Except.ok repos) (Except.ok ss) L v d
            = Except.ok (m, lg)) :=
  ⟨fun _ => rfl, fun _ => rfl, rfl,
    fun repos ss L v d => ⟨_, _, build_ok repos ss L v d⟩⟩

/-- Claim C10: the aggregation key is the bare concatenation
`registry + "/" + name`, so the distinct records `(a, b/c)` and
`(a/b, c)` share the key `"a/b/c"` and are merged into a single result
entry (the later record's data overwrites the earlier one's). -/
theorem claim_C10_key_collision :
    repoKey (Repo.mk (some "a") (some "b/c"))
        = repoKey (Repo.mk (some "a/b") (some "c"))
    ∧ Repo.mk (some "a") (some "b/c") ≠ Repo.mk (some "a/b") (some "c")
    ∧ build_repository_scope_map
        (Except.ok [Repo.mk (some "a") (some "b/c"),
          Repo.mk (some "a/b") (some "c")])
        (Except.ok []) (fun _ => Except.ok []) false false
      = Except.ok
          ([("a/b/c", Entry.mk (Repo.mk (some "a/b") (some "c")) [some "Global"])],
            []) :=
  ⟨rfl, by decide, rfl⟩

end Aqua
